import Mathlib

/-!
# Verification of the training-log notation parser

A shallow embedding of `src/lib/parsers/mod.ts` from the training-tracker
repository.  Strings are modelled as `List Char`; the JavaScript regular
expressions used by the source are translated into equivalent deterministic
scanning functions (each translation is justified in its doc comment).
JavaScript numbers are modelled as exact integers (`Int`); every numeric
value produced by the parser comes from `parseInt` on digit runs.
-/

namespace TrainingTracker

/-- Strings are modelled as lists of characters. -/
abbrev Str := List Char

/-- Conversion from Lean string literals to the model's string type. -/
def str (s : String) : Str := s.data

/-- JavaScript `\s` / `String.trim` whitespace, restricted to the ASCII
whitespace characters (the Unicode space characters also matched by the
JavaScript class do not occur in the notation). -/
def isWS (c : Char) : Bool :=
  c = ' ' || c = '\t' || c = '\n' || c = '\r' || c = '\x0b' || c = '\x0c'

/-- `String.prototype.trim`. -/
def trim (s : Str) : Str :=
  ((s.dropWhile isWS).reverse.dropWhile isWS).reverse

/-- `hay.startsWith(needle)`. -/
def strStarts : Str → Str → Bool
  | _, [] => true
  | [], _ :: _ => false
  | h :: hs, n :: ns => h = n && strStarts hs ns

/-- `hay.includes(needle)` (substring search). -/
def strHas (needle : Str) : Str → Bool
  | [] => strStarts [] needle
  | c :: hs => strStarts (c :: hs) needle || strHas needle hs

/-- `s.split(sep)` for a one-character separator: JavaScript semantics,
empty pieces kept, `"".split(c) = [""]`. -/
def splitOnChar (sep : Char) : Str → List Str
  | [] => [[]]
  | c :: cs =>
    if c = sep then [] :: splitOnChar sep cs
    else
      match splitOnChar sep cs with
      | [] => [[c]]
      | p :: ps => (c :: p) :: ps

/-- Numeric value of a digit string (most significant first). -/
def digitsToInt (ds : Str) : Int :=
  ds.foldl (fun acc c => acc * 10 + (c.toNat - '0'.toNat : Int)) 0

/-- `/^\d+$/.test(s)`: non-empty and all decimal digits. -/
def isAllDigits (s : Str) : Bool :=
  !s.isEmpty && s.all Char.isDigit

/-- Hexadecimal digit predicate, for `parseInt`'s `0x` form. -/
def isHexDigit (c : Char) : Bool :=
  c.isDigit || ('a' ≤ c && c ≤ 'f') || ('A' ≤ c && c ≤ 'F')

/-- Value of one hexadecimal digit. -/
def hexVal (c : Char) : Int :=
  if c.isDigit then (c.toNat - '0'.toNat : Int)
  else if 'a' ≤ c && c ≤ 'f' then (c.toNat - 'a'.toNat + 10 : Int)
  else (c.toNat - 'A'.toNat + 10 : Int)

/-- Numeric value of a hex-digit string. -/
def hexToInt (ds : Str) : Int :=
  ds.foldl (fun acc c => acc * 16 + hexVal c) 0

/-- JavaScript `parseInt(s)` (radix unspecified): skip leading whitespace,
optional sign, then either a `0x`/`0X` prefix with hexadecimal digits or a
run of decimal digits; `none` models `NaN`. -/
def jsParseInt (s : Str) : Option Int :=
  let s := s.dropWhile isWS
  let (sign, s) : Int × Str :=
    match s with
    | '-' :: r => (-1, r)
    | '+' :: r => (1, r)
    | r => (1, r)
  match s with
  | '0' :: x :: r =>
    if x = 'x' || x = 'X' then
      let ds := r.takeWhile isHexDigit
      if ds.isEmpty then none else some (sign * hexToInt ds)
    else
      let ds := ('0' :: x :: r).takeWhile Char.isDigit
      some (sign * digitsToInt ds)
  | r =>
    let ds := r.takeWhile Char.isDigit
    if ds.isEmpty then none else some (sign * digitsToInt ds)

/-- `parseInt(s) || 0`: `NaN` (and the integer `0` itself) collapse to `0`. -/
def jsParseIntOr0 (s : Str) : Int :=
  match jsParseInt s with
  | some v => v
  | none => 0

end TrainingTracker

namespace TrainingTracker

/-! ## Data model (`mod.ts`, lines 1–53)

`Set` is rendered as `TrainingSet` (the source name collides with
Mathlib's `Set`).  Optional TS fields become `Option`; the optional
`isRepeat` flag becomes a `Bool` (`undefined` and `false` are
indistinguishable to the source, which only tests truthiness and
assigns `false`). -/

/-- `TimeUnit = 's' | 'min' | ''`. -/
inductive TimeUnit where
  | s | min | unitless
deriving DecidableEq, Repr

/-- `LoadUnit = 'kg' | ''`. -/
inductive LoadUnit where
  | kg | unitless
deriving DecidableEq, Repr

/-- `CompletionState = 'A' | 'B' | 'C' | ''`. -/
inductive CompletionState where
  | A | B | C | unset
deriving DecidableEq, Repr

/-- `ValueWithUnit<TimeUnit>`. -/
structure TimeValue where
  value : Int
  unit : TimeUnit
deriving DecidableEq, Repr

/-- `ValueWithUnit<LoadUnit>`. -/
structure LoadValue where
  value : Int
  unit : LoadUnit
deriving DecidableEq, Repr

/-- `EffortResult`: reps- or time-measured result. -/
inductive EffortResult where
  | reps (count : Int) (state : CompletionState)
  | time (duration : TimeValue) (state : CompletionState)
deriving DecidableEq, Repr

/-- `Effort`. -/
structure Effort where
  load : Option LoadValue
  result : EffortResult
  isRepeat : Bool
deriving DecidableEq, Repr

/-- `Set` (renamed to avoid the Mathlib name). -/
structure TrainingSet where
  efforts : List Effort
  comment : Option Str
deriving DecidableEq, Repr

/-- `TargetType`. -/
inductive TargetType where
  | reps (count : Int)
  | time (duration : TimeValue)
deriving DecidableEq, Repr

/-- `Exercise`. -/
structure Exercise where
  name : Str
  targetSets : Int
  target : TargetType
  sets : List TrainingSet
  comment : Option Str
deriving DecidableEq, Repr

/-- The `Date` produced by `new Date(year, month, day[, hours, minutes])`
in `parseSession`: the model records the constructor arguments (all the
dates built by the parser have in-range fields, so no calendar
normalisation is observable). -/
structure DateVal where
  year : Int
  month : Int
  day : Int
  hours : Int
  minutes : Int
deriving DecidableEq, Repr

/-- `TrainingSession`. -/
structure TrainingSession where
  title : Str
  date : Option DateVal
  exercises : List Exercise
  comment : Option Str
deriving DecidableEq, Repr

/-! ## Regex translations

Each function translates one JavaScript regular expression from the
source; the backtracking behaviour of each pattern is deterministic
(argued per function), so plain scans are faithful. -/

/-- `[ABC]`. -/
def isABC (c : Char) : Bool := c = 'A' || c = 'B' || c = 'C'

/-- The completion state denoted by a matched `[ABC]` character. -/
def stateOfChar (c : Char) : CompletionState :=
  if c = 'A' then .A else if c = 'B' then .B else .C

/-- `[a-z0-9]`. -/
def isLower09 (c : Char) : Bool :=
  c.isDigit || ('a' ≤ c && c ≤ 'z')

/-- The capture of `(\d*[a-z0-9]*)?` at a fixed position: `\d*` greedily
takes the maximal digit run, then `[a-z0-9]*` the maximal run of lowercase
letters and digits; together the maximal `[a-z0-9]` run. Returns the
capture and the remaining characters. -/
def group2Of (s : Str) : Str × Str :=
  (s.takeWhile isLower09, s.dropWhile isLower09)

/-- `/^---+$/`: a line of three or more dashes and nothing else. -/
def isDashSep (s : Str) : Bool :=
  decide (3 ≤ s.length) && s.all (· = '-')

/-- `/^\d{2}\/\d{2}\/\d{4}(\s+\d{2}:\d{2})?$/`. The optional time part:
`\s+` greedily eats the maximal whitespace run (taking fewer would leave a
whitespace character where a digit is required), after which exactly
`\d{2}:\d{2}` must remain. -/
def dateTest (s : Str) : Bool :=
  match s with
  | a :: b :: c :: d :: e :: f :: g :: h :: i :: j :: rest =>
    a.isDigit && b.isDigit && c = '/' && d.isDigit && e.isDigit && f = '/' &&
    g.isDigit && h.isDigit && i.isDigit && j.isDigit &&
    (match rest with
     | [] => true
     | w :: r2 =>
       isWS w &&
       (match r2.dropWhile isWS with
        | [p, q, colon, u, v] =>
          p.isDigit && q.isDigit && colon = ':' && u.isDigit && v.isDigit
        | _ => false))
  | _ => false

/-- The capture groups of
`/(\d{2})\/(\d{2})\/(\d{4})(?:\s+(\d{2}):(\d{2}))?/` on a line that
already passed `dateTest` (so the search match starts at position 0),
assembled into the `Date` constructed by `parseSession` (month stored
0-indexed, missing time components zeroed). -/
def dateExtract (s : Str) : DateVal :=
  match s with
  | a :: b :: _ :: d :: e :: _ :: g :: h :: i :: j :: rest =>
    let day := digitsToInt [a, b]
    let month := digitsToInt [d, e] - 1
    let year := digitsToInt [g, h, i, j]
    (match rest.dropWhile isWS with
     | [p, q, _, u, v] => ⟨year, month, day, digitsToInt [p, q], digitsToInt [u, v]⟩
     | _ => ⟨year, month, day, 0, 0⟩)
  | _ => ⟨0, 0, 0, 0, 0⟩

/-- The part of the exercise-definition pattern after the lazy name group:
`\s*\((\d+)[\*x]([^)]+)\)\s*:?(.*)$`.  Greedy `\s*` before `(` is
deterministic (shorter matches leave a whitespace character where `(` is
required); greedy `(\d+)` is deterministic (shorter digit runs leave a
digit where `[\*x]` is required); greedy `([^)]+)` runs to the first `)`;
after `)`, greedy `\s*` then optional `:` delimit the trailing capture.
Returns `(targetSets digits, target capture, trailing capture)`. -/
def matchAfterName (s : Str) : Option (Str × Str × Str) :=
  match s.dropWhile isWS with
  | '(' :: rest =>
    let ds := rest.takeWhile Char.isDigit
    if ds.isEmpty then none
    else
      match rest.dropWhile Char.isDigit with
      | c :: rest2 =>
        if c = '*' || c = 'x' then
          let tgt := rest2.takeWhile (· ≠ ')')
          if tgt.isEmpty then none
          else
            match rest2.dropWhile (· ≠ ')') with
            | _ :: rest3 =>
              let rest4 := rest3.dropWhile isWS
              let rest5 := match rest4 with
                | ':' :: r => r
                | r => r
              some (ds, tgt, rest5)
            | [] => none
        else none
      | [] => none
  | _ => none

/-- `/^(.+?)\s*\((\d+)[\*x]([^)]+)\)\s*:?(.*)$/` (line 162) — and the
check-only `/^(.+?)\s*\((\d+)[\*x]([^)]+)\).*$/` (line 214), which
succeeds on exactly the same lines since both suffixes after `\)` are
total.  The lazy `(.+?)` takes the shortest non-empty prefix after which
the rest of the pattern matches.  Returns
`(name, targetSets digits, target, trailing detail)`. -/
def exerciseMatchAux (acc : Str) : Str → Option (Str × Str × Str × Str)
  | [] => none
  | c :: rest =>
    let acc' := acc ++ [c]
    match matchAfterName rest with
    | some (ds, tgt, detail) => some (acc', ds, tgt, detail)
    | none => exerciseMatchAux acc' rest

/-- See `exerciseMatchAux`. -/
def exerciseMatch (s : Str) : Option (Str × Str × Str × Str) :=
  exerciseMatchAux [] s

/-- First match of `/'([^']+)'/` (search): the first `'` that is followed
by at least one non-`'` character and a closing `'`.  Returns
`(before, capture, after)`; removing the matched span models
`s.replace(match[0], '')` (the matched text's first literal occurrence is
the match itself, since any earlier occurrence would be an earlier
pattern match). -/
def findComment : Str → Option (Str × Str × Str)
  | [] => none
  | c :: rest =>
    (if c = '\'' then
      (match rest.dropWhile (fun x => x ≠ '\'') with
       | _ :: after =>
         let inner := rest.takeWhile (fun x => x ≠ '\'')
         if inner.isEmpty then none else some (([] : Str), inner, after)
       | [] => none)
     else none) |>.orElse
      (fun _ => (findComment rest).map fun (b, i, a) => (c :: b, i, a))

/-- `/^\s*\/\s+([ABC])(\d*[a-z0-9]*)?/` (lines 341 and 464): optional
whitespace, `/`, at least one whitespace character, a state letter, then
the `group2Of` capture.  Greedy `\s+` is deterministic (a shorter run
leaves whitespace where `[ABC]` is required). -/
def matchRepeatState (s : Str) : Option (Char × Str) :=
  match s.dropWhile isWS with
  | '/' :: rest =>
    match rest with
    | w :: _ =>
      if isWS w then
        match rest.dropWhile isWS with
        | c :: rest3 => if isABC c then some (c, (group2Of rest3).1) else none
        | [] => none
      else none
    | [] => none
  | _ => none

/-- After optional whitespace a `/` then optional whitespace; returns the
remaining characters.  Shared scanner for the three distinct-set
patterns of `parseSet` (line 428). -/
def slashRun (s : Str) : Option Str :=
  match s.dropWhile isWS with
  | '/' :: r => some (r.dropWhile isWS)
  | _ => none

/-- Search for `/,\s*\/\s*,/`. -/
def patSlashMid : Str → Bool
  | [] => false
  | c :: rest =>
    (c = ',' &&
      (match slashRun rest with
       | some (',' :: _) => true
       | _ => false)) || patSlashMid rest

/-- Search for `/,\s*\/\s*$/`. -/
def patSlashEnd : Str → Bool
  | [] => false
  | c :: rest =>
    (c = ',' &&
      (match slashRun rest with
       | some [] => true
       | _ => false)) || patSlashEnd rest

/-- `/^\s*\/\s*,/`. -/
def patSlashStart (s : Str) : Bool :=
  match slashRun s with
  | some (',' :: _) => true
  | _ => false

/-- Match of `/(\d+)(min|s)(\d+)?(s)?/` at one position, reduced to the
`minutes*60 + seconds` total the source computes at every use site
(lines 492–496, 622–628, 739–746): greedy `(\d+)` is deterministic, the
alternation prefers `min`, the optional groups are greedy with nothing
after them.  `minutes = m2 == 'min' ? int(m1) : 0`;
`seconds = m3 ? int(m3) : (m2 == 's' ? int(m1) : 0)`. -/
def timeAtPos (s : Str) : Option Int :=
  let d1 := s.takeWhile Char.isDigit
  if d1.isEmpty then none
  else
    match s.dropWhile Char.isDigit with
    | 'm' :: 'i' :: 'n' :: r =>
      let d2 := r.takeWhile Char.isDigit
      some (digitsToInt d1 * 60 + (if d2.isEmpty then 0 else digitsToInt d2))
    | 's' :: _ =>
      some (digitsToInt d1)
    | _ => none

/-- Search of `/(\d+)(min|s)(\d+)?(s)?/`: leftmost position at which
`timeAtPos` succeeds. -/
def timeSearch : Str → Option Int
  | [] => none
  | c :: rest =>
    match timeAtPos (c :: rest) with
    | some tot => some tot
    | none => timeSearch rest

/-- Search of `/(\d+)(?:kg)?/`: the first maximal digit run (the `kg`
group is optional and captures nothing). -/
def digitSearch : Str → Option Str
  | [] => none
  | c :: rest =>
    if c.isDigit then some (c :: rest.takeWhile Char.isDigit)
    else digitSearch rest

/-- Search of `/([ABC])/`: the first state letter, if any. -/
def findABC : Str → Option Char
  | [] => none
  | c :: rest => if isABC c then some c else findABC rest

/-- First match of `/([ABC])(\d*[a-z0-9]*)?/` (line 716): the first state
letter together with its `group2Of` capture; returns
`(before, letter, capture, after)`.  Removing `before ++ after` models
`effortStr.replace(stateMatch[0], '')` (the matched text starts with the
first `[ABC]` character of the string, so its first literal occurrence is
the match itself). -/
def findState : Str → Option (Str × Char × Str × Str)
  | [] => none
  | c :: rest =>
    if isABC c then
      let (g2, after) := group2Of rest
      some (([] : Str), c, g2, after)
    else
      (findState rest).map fun (b, l, g, a) => (c :: b, l, g, a)

/-- First match of `/^(.*?)\s*([ABC])(.*)$/` (line 560): the lazy head
group ends at the first `[ABC]` character minus the whitespace run
immediately before it (eaten by the greedy `\s*`); the tail group is
everything after the letter.  Returns `(resistancePart, letter,
completionPart)`. -/
def findCompletion : Str → Option (Str × Char × Str)
  | [] => none
  | c :: rest =>
    if isABC c then
      some (([] : Str), c, rest)
    else
      (findCompletion rest).map fun (b, l, a) =>
        (if b.isEmpty ∧ isWS c then ([] : Str) else c :: b, l, a)

/-! ## The parser (`mod.ts`, lines 55–860) -/

/-- `List.map` with the element index, as a plain structural recursion. -/
def mapWithIndexGo (f : Nat → α → β) (n : Nat) : List α → List β
  | [] => []
  | a :: as => f n a :: mapWithIndexGo f (n + 1) as

/-- `Array.prototype.map((x, i) => ...)`. -/
def mapWithIndex (f : Nat → α → β) (l : List α) : List β :=
  mapWithIndexGo f 0 l

/-- `/^(\d+)(min|s)$/` of `parseTarget`: anchored, so the greedy digit run
must be followed by exactly `min` or exactly `s`. -/
def matchTimeTarget (s : Str) : Option (Int × TimeUnit) :=
  let ds := s.takeWhile Char.isDigit
  if ds.isEmpty then none
  else
    match s.dropWhile Char.isDigit with
    | ['m', 'i', 'n'] => some (digitsToInt ds, .min)
    | ['s'] => some (digitsToInt ds, .s)
    | _ => none

/-- `parseTarget` (lines 382–403). -/
def parseTarget (targetStr : Str) : TargetType :=
  let t := trim targetStr
  match matchTimeTarget t with
  | some (v, u) => .time ⟨v, u⟩
  | none => .reps (jsParseIntOr0 t)

/-- The target-valued result built at lines 517–529 (and, when the target
is present, at lines 760–811): the state letter alone signals the target
value. -/
def resultFromTarget (target : Option TargetType) (state : CompletionState) : EffortResult :=
  match target with
  | some (.time d) => .time d state
  | some (.reps c) => .reps c state
  | none => .reps 0 state

/-- The zero-valued target-typed result built at lines 507–515. -/
def resultZeroTyped (target : Option TargetType) (state : CompletionState) : EffortResult :=
  match target with
  | some (.time _) => .time ⟨0, .s⟩ state
  | _ => .reps 0 state

/-- Load extraction of the completion drop-set branch (lines 597–604):
the unit is hard-coded `'kg'`. -/
def dropLoad (resistance : Str) : Option LoadValue :=
  match digitSearch resistance with
  | some ds => some ⟨digitsToInt ds, .kg⟩
  | none => none

/-- Result selection of the completion drop-set branch (lines 606–667). -/
def dropCompletionResult (state : CompletionState) (completions : List Str)
    (nres : Nat) (remaining : Int) (i : Nat) : EffortResult :=
  match completions.get? i with
  | some completion =>
    if isAllDigits completion then .reps (digitsToInt completion) state
    else if strHas (str "min") completion || strHas (str "s") completion then
      match timeSearch completion with
      | some tot => .time ⟨tot, .s⟩ state
      | none => .reps 0 state
    else .reps 0 state
  | none =>
    if i = nres - 1 ∧ completions.length < nres ∧ remaining > 0 then
      .reps remaining state
    else .reps 0 state

/-- One effort of the completion drop-set branch. -/
def dropEffort (state : CompletionState) (completions : List Str)
    (nres : Nat) (remaining : Int) (i : Nat) (r : Str) : Effort :=
  ⟨dropLoad r, dropCompletionResult state completions nres remaining i, false⟩

/-- One effort of the no-completion drop-set branch (lines 680–706): here
the unit is `'kg'` only when the resistance token contains `kg`. -/
def dropPlainEffort (r : Str) : Effort :=
  ⟨(match digitSearch r with
    | some ds => some ⟨digitsToInt ds, if strHas (str "kg") r then .kg else .unitless⟩
    | none => none),
   .reps 0 (match findABC r with
            | some c => stateOfChar c
            | none => .unset),
   false⟩

/-- `split('/').map(trim).filter(Boolean)` (lines 567, 574, 678). -/
def slashPieces (s : Str) : List Str :=
  ((splitOnChar '/' s).map trim).filter (fun p => !p.isEmpty)

/-- `split(',').map(trim).filter(Boolean)` (lines 184, 336). -/
def commaPieces (s : Str) : List Str :=
  ((splitOnChar ',' s).map trim).filter (fun p => !p.isEmpty)

/-- Result of the repeat-with-state branch (lines 469–530). -/
def repeatStateResult (stateC : Char) (completionValue : Str)
    (target : Option TargetType) : EffortResult :=
  let state := stateOfChar stateC
  if state = .C ∧ isAllDigits completionValue then
    match target with
    | some (.time _) => .time ⟨digitsToInt completionValue, .s⟩ state
    | _ => .reps (digitsToInt completionValue) state
  else if (state = .C && strHas (str "s") completionValue)
      || strHas (str "min") completionValue then
    -- `state === 'C' && cv.includes('s') || cv.includes('min')`:
    -- `&&` binds tighter than `||` (line 490)
    match timeSearch completionValue with
    | some tot => .time ⟨tot, .s⟩ state
    | none => resultZeroTyped target state
  else
    resultFromTarget target state

/-- The bare repeat-marker effort (lines 540–555); note `unit || 's'`. -/
def bareRepeatEffort (target : Option TargetType) : Effort :=
  ⟨none,
   (match target with
    | some (.time d) => .time ⟨0, if d.unit = .unitless then .s else d.unit⟩ .unset
    | _ => .reps 0 .unset), true⟩

/-- The efforts of the completion drop-set branch (lines 562–675). -/
def dropCompletionEfforts (resistancePart : Str) (stateC : Char)
    (completionPart : Str) (target : Option TargetType) : List Effort :=
  let state := stateOfChar stateC
  let resistances := slashPieces resistancePart
  let completions :=
    if !completionPart.isEmpty && strHas (str "/") completionPart then
      slashPieces completionPart
    else if !completionPart.isEmpty then [trim completionPart]
    else []
  let remaining : Int :=
    match target with
    | some (.reps tc) =>
      tc - ((completions.filter isAllDigits).map digitsToInt).foldl (· + ·) 0
    | _ => 0
  mapWithIndex (dropEffort state completions resistances.length remaining) resistances

/-- The completion state and its attached value found by the standard
branch's state match (lines 713–722). -/
def stateAndValue (s : Str) : CompletionState × Str :=
  match findState s with
  | some (_, c, g2, _) => (stateOfChar c, g2)
  | none => (.unset, [])

/-- The residual string of the standard effort branch after the state
match is removed (line 721). -/
def stateResidual (s : Str) : Str :=
  match findState s with
  | some (b, _, _, a) => trim (b ++ a)
  | none => s

/-- The load of the standard branch (lines 725–732), computed from the
state-stripped residual: digits searched anywhere, unit `kg` exactly when
the residual contains `kg`. -/
def stdLoad (s'' : Str) : Option LoadValue :=
  if !s''.isEmpty then
    match digitSearch s'' with
    | some ds => some ⟨digitsToInt ds, if strHas (str "kg") s'' then .kg else .unitless⟩
    | none => none
  else none

/-- The result of the standard single-effort branch (lines 735–851): the
`C`-with-time-value check first (lines 738–757), then the `A` and `B`
target-valued cases, then the target-typed defaults. -/
def standardResult (state : CompletionState) (completionValue : Str)
    (target : Option TargetType) : EffortResult :=
  let ctime : Option Int :=
    if state = .C ∧ !completionValue.isEmpty then timeSearch completionValue else none
  match ctime with
  | some tot => .time ⟨tot, .s⟩ state
  | none =>
    if state = .A ∧ target.isSome then resultFromTarget target state
    else if state = .B ∧ target.isSome then resultFromTarget target state
    else
      match target with
      | some (.time td) =>
        if state = .C ∧ isAllDigits completionValue then
          .time ⟨digitsToInt completionValue, .s⟩ state
        else
          .time ⟨0, td.unit⟩ state
      | _ =>
        .reps (if state = .C ∧ isAllDigits completionValue then digitsToInt completionValue
               else 0) state

/-- The standard single-effort branch (lines 710–852): every return path
carries the same load (`stdLoad` of the state-stripped residual) and is a
one-element array. -/
def standardEffort (s : Str) (target : Option TargetType) : List Effort :=
  [⟨stdLoad (stateResidual s),
    standardResult (stateAndValue s).1 (stateAndValue s).2 target, false⟩]

/-- `parseEffort` (lines 457–852).  `none` models the `null` return for a
blank string; the returned list may be empty (the completion drop-set
branch with no usable resistances returns an empty array). -/
def parseEffort (effortStr0 : Str) (target : Option TargetType) : Option (List Effort) :=
  let s := trim effortStr0
  if s.isEmpty then none
  else
    match matchRepeatState s with
    | some (stateC, completionValue) =>
      -- repeat with completion state, `/ C7` (lines 464–537)
      some [⟨none, repeatStateResult stateC completionValue target, true⟩]
    | none =>
      if s = ['/'] then
        some [bareRepeatEffort target]
      else if strHas (str "/") s then
        match findCompletion s with
        | some (resistancePart, stateC, completionPart) =>
          some (dropCompletionEfforts resistancePart stateC completionPart target)
        | none =>
          -- drop set without completion notation (lines 677–707)
          some ((slashPieces s).map dropPlainEffort)
      else
        some (standardEffort s target)

/-- `parseSet` (lines 408–451), with a fuel argument standing for the
source's general recursion (the recursive call at line 434 receives the
first comma-delimited piece, which contains no comma and therefore never
recurses again; `length + 1` fuel is always sufficient). -/
def parseSetFuel : Nat → Str → Option TargetType → Option TrainingSet
  | 0, _, _ => none
  | fuel + 1, setStr0, target =>
    let s := trim setStr0
    if s.isEmpty then none
    else
      let (comment, s) :=
        match findComment s with
        | some (b, inner, a) => (inner, trim (b ++ a))
        | none => (([] : Str), s)
      if strHas (str ",") s && (patSlashMid s || patSlashEnd s || patSlashStart s) then
        -- distinct sets: the source parses only the first piece (line 434)
        parseSetFuel fuel (trim (s.takeWhile (· ≠ ','))) target
      else
        match parseEffort s target with
        | some efforts =>
          if efforts.isEmpty then none
          else some ⟨efforts, if comment.isEmpty then none else some comment⟩
        | none => none

/-- `parseSet` at its always-sufficient fuel. -/
def parseSet (s : Str) (target : Option TargetType) : Option TrainingSet :=
  parseSetFuel (s.length + 1) s target

/-- The sets produced from one list item by `processListItems`
(lines 323–377).  The two arms of the `/^\s*\/\s+[ABC]/` test
(lines 341–363) build identical sets, so a single construction stands for
both. -/
def itemSets (target : TargetType) (item : Str) : List TrainingSet :=
  let (comment, item') :=
    match findComment item with
    | some (b, inner, a) => (inner, trim (b ++ a))
    | none => (([] : Str), item)
  if strHas (str ",") item' then
    let pieces := commaPieces item'
    (mapWithIndex (fun idx piece =>
      match parseEffort piece (some target) with
      | some efforts =>
        if efforts.isEmpty then none
        else some (⟨efforts,
          if idx = pieces.length - 1 then some comment else none⟩ : TrainingSet)
      | none => none) pieces).filterMap id
  else
    match parseSet item' (some target) with
    | some st => [if comment.isEmpty then st else {st with comment := some comment}]
    | none => []

/-- `processListItems` applied to the current exercise: append the sets of
every queued item. -/
def flushItems (ex : Exercise) (items : List Str) : Exercise :=
  {ex with sets := ex.sets ++ (items.map (itemSets ex.target)).flatten}

/-- The per-effort step of `processRepeatEfforts` (lines 248–315),
operating on the already-resolved previous set. -/
def resolveEffort (target : TargetType) (prevEfforts : List Effort)
    (j : Nat) (e : Effort) : Effort :=
  if e.isRepeat then
    match prevEfforts.get? j with
    | some pe =>
      let result :=
        match pe.result, e.result with
        | .reps pc ps, .reps c s =>
          if s = .unset then .reps pc ps
          else if s = .C ∧ c = 0 then .reps 0 s
          else .reps c s
        | .time pd ps, .time d s =>
          if s = .unset then .time pd ps
          else if s = .C ∧ d.value = 0 then .time ⟨0, pd.unit⟩ s
          else .time d s
        | _, _ => e.result
      ⟨pe.load, result, false⟩
    | none =>
      -- no corresponding previous effort (lines 302–314): target defaults
      -- for states A/B; the repeat flag is NOT cleared on this path
      match target, e.result with
      | .reps tc, .reps _ s =>
        if s = .A ∨ s = .B then {e with result := .reps tc s} else e
      | .time td, .time _ s =>
        if s = .A ∨ s = .B then {e with result := .time td s} else e
      | _, _ => e
  else e

/-- One set of the resolver pass: every effort resolved against the
(already-resolved) previous set; the comment is untouched. -/
def resolveSetStep (target : TargetType) (prev cur : TrainingSet) : TrainingSet :=
  ⟨mapWithIndex (resolveEffort target prev.efforts) cur.efforts, cur.comment⟩

/-- The set-by-set pass of `processRepeatEfforts`: each set is resolved
against the already-resolved set before it (the source mutates in place,
so set `i` reads the processed set `i−1`). -/
def resolveSetsGo (target : TargetType) (prev : TrainingSet) :
    List TrainingSet → List TrainingSet
  | [] => []
  | s :: rest =>
    resolveSetStep target prev s :: resolveSetsGo target (resolveSetStep target prev s) rest

/-- `processRepeatEfforts` (lines 239–318): exercises with at most one
set are returned untouched; otherwise the first set is untouched and
every later set is resolved against its predecessor. -/
def processRepeatEfforts (ex : Exercise) : Exercise :=
  if ex.sets.length ≤ 1 then ex
  else
    match ex.sets with
    | [] => ex
    | first :: rest => {ex with sets := first :: resolveSetsGo ex.target first rest}

/-- The scan state of the exercise-extraction loop of `parseSession`
(lines 149–221): the exercises so far (most recent first; the source's
`currentExercise` is the head), the list mode flag and the queued list
items. -/
structure ScanState where
  exercisesRev : List Exercise
  inList : Bool
  items : List Str
deriving DecidableEq, Repr

/-- Flush the queued list items into the current exercise. -/
def flushState (st : ScanState) : ScanState :=
  match st.exercisesRev with
  | [] => st
  | ex :: rest => ⟨flushItems ex st.items :: rest, st.inList, []⟩

/-- Exercise creation (lines 170–194): parse the target, parse the inline
set details (comma-split, trimmed, blanks dropped), push the exercise,
leave list mode. -/
def createExercise (st : ScanState) (name ds tgtStr detail : Str) : ScanState :=
  let target := parseTarget (trim tgtStr)
  let inline :=
    if !(trim detail).isEmpty then
      (commaPieces detail).filterMap (fun d => parseSet d (some target))
    else []
  ⟨⟨trim name, digitsToInt ds, target, inline, none⟩ :: st.exercisesRev, false, []⟩

/-- One iteration of the extraction loop (lines 153–221).  The source's
`i--` retry (line 216) re-runs the same line with list mode off; since
that line already passed the title/date skip and re-matches the exercise
pattern, the retry is exactly an exercise creation, inlined here.  (The
retry condition can in fact never hold: `newExerciseMatch` succeeds on
exactly the lines `exerciseMatch` succeeds on, and those were consumed
earlier in the iteration.) -/
def scanLine (st : ScanState) (rawLine : Str) : ScanState :=
  let line := trim rawLine
  if line.isEmpty || strStarts line (str "# ") || dateTest line then st
  else
    match exerciseMatch line with
    | some (name, ds, tgtStr, detail) =>
      let st1 :=
        if !st.exercisesRev.isEmpty && st.inList && !st.items.isEmpty then flushState st
        else st
      createExercise st1 name ds tgtStr detail
    | none =>
      if strStarts line (str "-") && !st.exercisesRev.isEmpty then
        ⟨st.exercisesRev, true, st.items ++ [trim (line.drop 1)]⟩
      else if st.inList && !st.exercisesRev.isEmpty then
        let st1 := if !st.items.isEmpty then flushState st else st
        match exerciseMatch line with
        | some (name, ds, tgtStr, detail) => createExercise st1 name ds tgtStr detail
        | none => ⟨st1.exercisesRev, st1.inList, []⟩
      else st

/-- `parseSession` (lines 105–234). -/
def parseSession (sessionText : Str) : TrainingSession :=
  let lines := splitOnChar '\n' sessionText
  let title :=
    match lines.find? (fun l => strStarts (trim l) (str "# ")) with
    | some l => trim ((trim l).drop 2)
    | none => []
  let date :=
    match lines.find? (fun l => dateTest (trim l)) with
    | some l => some (dateExtract (trim l))
    | none => none
  let finalSt := lines.foldl scanLine ⟨[], false, []⟩
  let finalSt2 :=
    if !finalSt.exercisesRev.isEmpty && finalSt.inList && !finalSt.items.isEmpty then
      flushState finalSt
    else finalSt
  ⟨title, date, (finalSt2.exercisesRev.reverse).map processRepeatEfforts, some []⟩

/-- The line of joined trimmed lines pushed as one section
(lines 71, 81, 93). -/
def joinNL : List Str → Str
  | [] => []
  | [l] => l
  | l :: ls => l ++ '\n' :: joinNL ls

/-- The section-splitting loop of `parseContent` (lines 60–94): a title
line closes the current section (when non-empty) and starts a new one, a
dash separator closes it, every other (trimmed) line is appended. -/
def buildSections (cur : List Str) : List Str → List Str
  | [] => if cur.isEmpty then [] else [joinNL cur]
  | l :: rest =>
    let line := trim l
    if strStarts line (str "# ") then
      if !cur.isEmpty then joinNL cur :: buildSections [line] rest
      else buildSections [line] rest
    else if isDashSep line then
      if !cur.isEmpty then joinNL cur :: buildSections [] rest
      else buildSections [] rest
    else buildSections (cur ++ [line]) rest

/-- `parseContent` (lines 58–100): split into sections, drop blank
sections, parse each. -/
def parseContent (content : Str) : List TrainingSession :=
  ((buildSections [] (splitOnChar '\n' content)).filter
    (fun s => !(trim s).isEmpty)).map parseSession

/-! ## Derived observations used in claim statements -/

/-- Whether a result is time-typed (its variant tag). -/
def resultIsTime : EffortResult → Bool
  | .time _ _ => true
  | .reps _ _ => false

/-- Whether a target is time-typed (its variant tag). -/
def targetIsTime : TargetType → Bool
  | .time _ => true
  | .reps _ => false

/-- The completion state carried by a result. -/
def resultState : EffortResult → CompletionState
  | .reps _ st => st
  | .time _ st => st

/-- The numeric value carried by a result (count, or duration value). -/
def resultValue : EffortResult → Int
  | .reps c _ => c
  | .time d _ => d.value

/-- Two results of the same variant. -/
def sameKind (a b : EffortResult) : Bool :=
  resultIsTime a == resultIsTime b

/-- A `TimeValue` in seconds (`min` counts as 60 s). -/
def timeValueInSeconds (d : TimeValue) : Int :=
  match d.unit with
  | .min => 60 * d.value
  | _ => d.value

/-- The standard branch's `C`-with-time-value situation (lines 738–746):
state letter `C`, a non-empty attached value in which the time pattern
matches. -/
def cTimeCase (s : Str) : Bool :=
  match findState s with
  | some (_, c, g2, _) => stateOfChar c = .C && !g2.isEmpty && (timeSearch g2).isSome
  | none => false

/-- Every effort list stored in a parsed set: non-empty, and any
repeat-flagged member is the only member. -/
def EffortsOK (es : List Effort) : Prop :=
  es ≠ [] ∧ ∀ e ∈ es, e.isRepeat = true → es = [e]

/-- `EffortsOK` for a set. -/
def SetOK (st : TrainingSet) : Prop := EffortsOK st.efforts

/-- All sets of an exercise satisfy `SetOK`. -/
def ExOK (ex : Exercise) : Prop := ∀ st ∈ ex.sets, SetOK st

/-- All exercises of a scan state satisfy `ExOK`. -/
def StateOK (st : ScanState) : Prop := ∀ ex ∈ st.exercisesRev, ExOK ex

/-- The "no comma-delimited piece is discarded" reading of the set
parser's compound-line handling: the efforts parsed from every
comma-delimited piece all appear in the parse of the whole string. -/
def pieceEffortsKept (s : Str) (t : Option TargetType) : Bool :=
  (commaPieces s).all fun piece =>
    match parseSet piece t with
    | some st' =>
      st'.efforts.all fun e =>
        (match parseSet s t with
         | some st => st.efforts.any fun x => decide (x = e)
         | none => false)
    | none => true

/-- The claim C2 invariant at one input: no repeat flag anywhere in the
output. -/
def noRepeatAnywhere (content : Str) : Bool :=
  (parseContent content).all fun sess =>
    sess.exercises.all fun ex =>
      ex.sets.all fun st =>
        st.efforts.all fun e => !e.isRepeat

/-- The claim C3 invariant at one input: every effort's result tag equals
its exercise's target tag. -/
def kindsAgreeEverywhere (content : Str) : Bool :=
  (parseContent content).all fun sess =>
    sess.exercises.all fun ex =>
      ex.sets.all fun st =>
        st.efforts.all fun e => resultIsTime e.result == targetIsTime ex.target

/-! ## Claims about concrete scenario inputs -/

/-- **C1.** `parseContent` is a total function of the input string — the
embedding is a total Lean function, so every input has a value — and the
empty string parses to the empty session list. -/
theorem parseContent_total_and_empty :
    (∀ s : Str, ∃ out, parseContent s = out) ∧ parseContent (str "") = [] :=
  ⟨fun _ => ⟨_, rfl⟩, by decide⟩

/-- **C4.** Scenario 1: the exact input yields one session, title
`Push Day`, date 2025-02-20 (month stored 0-indexed, time zeroed), one
exercise `Bench Press`, target 8 reps, 4 target sets, four sets with
first-effort loads 45, 45, 40, 35 kg, reps 8, 7, 6, 8 and states
A, C, C, A.  The second conjunct shows the second set's effort before
resolution: a loadless repeat marker, whose load 45 therefore comes from
the first set by repeat resolution. -/
theorem scenario1_parse :
    parseContent (str "# Push Day\n20/02/2025\n\nBench Press (4x8) : 45kg A, / C7, 40kg C6, 35kg A\n") =
      [{ title := str "Push Day",
         date := some ⟨2025, 1, 20, 0, 0⟩,
         exercises := [{ name := str "Bench Press",
                         targetSets := 4,
                         target := .reps 8,
                         sets := [⟨[⟨some ⟨45, .kg⟩, .reps 8 .A, false⟩], none⟩,
                                  ⟨[⟨some ⟨45, .kg⟩, .reps 7 .C, false⟩], none⟩,
                                  ⟨[⟨some ⟨40, .kg⟩, .reps 6 .C, false⟩], none⟩,
                                  ⟨[⟨some ⟨35, .kg⟩, .reps 8 .A, false⟩], none⟩],
                         comment := none }],
         comment := some [] }] ∧
    parseEffort (str "/ C7") (some (.reps 8)) = some [⟨none, .reps 7 .C, true⟩] := by
  constructor <;> decide

/-- **C8.** Scenario 2: one exercise whose time target stores `1 min`,
i.e. 60 seconds; the first effort is a full-success `A` carrying that
60-second target value; sets 2 and 3 are exact copies of it produced by
repeat resolution (the middle conjunct shows the pre-resolution repeat
marker they come from); the fourth effort is an explicit `C` at 55
seconds and its set carries the comment `core fatigue`. -/
theorem scenario2_parse :
    parseContent (str "Plank (4*1min) : A, /, /, C55s 'core fatigue'\n") =
      [{ title := [],
         date := none,
         exercises := [{ name := str "Plank",
                         targetSets := 4,
                         target := .time ⟨1, .min⟩,
                         sets := [⟨[⟨none, .time ⟨1, .min⟩ .A, false⟩], none⟩,
                                  ⟨[⟨none, .time ⟨1, .min⟩ .A, false⟩], none⟩,
                                  ⟨[⟨none, .time ⟨1, .min⟩ .A, false⟩], none⟩,
                                  ⟨[⟨none, .time ⟨55, .s⟩ .C, false⟩], some (str "core fatigue")⟩],
                         comment := none }],
         comment := some [] }] ∧
    parseEffort (str "/") (some (.time ⟨1, .min⟩)) =
      some [⟨none, .time ⟨0, .min⟩ .unset, true⟩] ∧
    timeValueInSeconds ⟨1, .min⟩ = 60 ∧ timeValueInSeconds ⟨55, .s⟩ = 55 := by
  refine ⟨by decide, by decide, by decide, by decide⟩

/-! ## Counterexamples -/

/-- **C2, counterexample.** On `"E (2x8) : /"` the exercise has a single
set, `processRepeatEfforts` returns before its loop (and the loop starts
at the second set in any case), so the repeat flag of the first set's
effort survives into the final output: the claimed invariant is false. -/
theorem repeat_flag_survives_cex :
    noRepeatAnywhere (str "E (2x8) : /") = false := by decide

/-- **C3, counterexample.** On `"E (3x8) : 50kg C1min30s"` the exercise's
target is reps-typed, but the `C`-with-time-value branch of `parseEffort`
produces a time-typed result regardless of the target: the claimed
tag-agreement invariant is false. -/
theorem kind_agreement_cex :
    kindsAgreeEverywhere (str "E (3x8) : 50kg C1min30s") = false := by decide

/-- **C5, counterexample.** On `"100kg A, /"` (a comma string showing an
isolated `/` adjacent to a comma), `parseSet` parses only the first
comma-delimited piece and discards the rest: the repeat effort parsed
from the piece `"/"` appears nowhere in the result, falsifying "no
comma-delimited piece is discarded". -/
theorem parseSet_discards_pieces_cex :
    pieceEffortsKept (str "100kg A, /") (some (.reps 8)) = false := by decide

/-! ## Helper lemmas -/

theorem mem_of_mem_trim {c : Char} {s : Str} (h : c ∈ trim s) : c ∈ s := by
  unfold trim at h
  rw [List.mem_reverse] at h
  have h2 := (List.dropWhile_sublist (p := isWS)
    (l := (s.dropWhile isWS).reverse)).mem h
  rw [List.mem_reverse] at h2
  exact (List.dropWhile_sublist (p := isWS) (l := s)).mem h2

theorem mem_of_mem_takeWhile {c : Char} {p : Char → Bool} {s : Str}
    (h : c ∈ s.takeWhile p) : c ∈ s :=
  (List.takeWhile_sublist (p := p) (l := s)).mem h

theorem findComment_eq_none {s : Str} (h : ∀ c ∈ s, c ≠ '\'') :
    findComment s = none := by
  induction s with
  | nil => rfl
  | cons c rest ih =>
    have hc : c ≠ '\'' := h c (List.mem_cons_self _ _)
    have hrest : findComment rest = none :=
      ih fun x hx => h x (List.mem_cons_of_mem _ hx)
    simp [findComment, hc, hrest, Option.orElse]

theorem strHas_single_eq_false {c : Char} {s : Str} (h : c ∉ s) :
    strHas [c] s = false := by
  induction s with
  | nil => rfl
  | cons x xs ih =>
    have hx : x ≠ c := fun hxc => h (hxc ▸ List.mem_cons_self _ _)
    have hxs : c ∉ xs := fun hm => h (List.mem_cons_of_mem _ hm)
    simp [strHas, strStarts, hx, ih hxs]

/-- `parseSetFuel` never recurses on a string whose trimmed form has no
comment and no comma, so the fuel is irrelevant there (as long as it is
positive). -/
theorem parseSetFuel_eq_of_nocomma (f g : Nat) (s : Str) (t : Option TargetType)
    (hnq : findComment (trim s) = none)
    (hnc : strHas (str ",") (trim s) = false) :
    parseSetFuel (f + 1) s t = parseSetFuel (g + 1) s t := by
  simp only [parseSetFuel, hnq, hnc, Bool.false_and, Bool.false_eq_true, if_false]

/-- **C5, amended.** For a set-description string (without quoted
comments) whose trimmed form contains a comma and shows an isolated `/`
adjacent to a comma, `parseSet` parses only the **first** comma-delimited
piece and discards all the others; when the isolated-`/` test fails, the
whole comma-containing string is handed to the effort parser as a single
set (this is the `else` path of the definition).  The commas are never
used as set separators inside `parseSet` itself. -/
theorem parseSet_distinct_first_only (s : Str) (t : Option TargetType)
    (hq : ∀ c ∈ s, c ≠ '\'')
    (hc : strHas (str ",") (trim s) = true)
    (hp : (patSlashMid (trim s) || patSlashEnd (trim s) || patSlashStart (trim s)) = true) :
    parseSet s t = parseSet (trim ((trim s).takeWhile (· ≠ ','))) t := by
  have hq' : ∀ c ∈ trim s, c ≠ '\'' := fun c hcm => hq c (mem_of_mem_trim hcm)
  have hfc : findComment (trim s) = none := findComment_eq_none hq'
  have hne : (trim s).isEmpty = false := by
    cases htrim : trim s with
    | nil => rw [htrim] at hc; exact absurd hc (by decide)
    | cons a l => rfl
  have hslen : ∃ k, s.length = k + 1 := by
    cases s with
    | nil => exact absurd (by decide : trim ([] : Str) = []) (by
        intro h0
        rw [h0] at hc
        exact absurd hc (by decide))
    | cons a l => exact ⟨l.length, rfl⟩
  obtain ⟨k, hk⟩ := hslen
  set fp := trim ((trim s).takeWhile (· ≠ ',')) with hfp
  have hfpq : findComment (trim fp) = none := by
    refine findComment_eq_none fun c hcm => ?_
    exact hq' c (mem_of_mem_takeWhile (mem_of_mem_trim (hfp ▸ mem_of_mem_trim hcm)))
  have hfpc : strHas (str ",") (trim fp) = false := by
    have : (',' : Char) ∉ trim fp := by
      intro hm
      have h1 : (',' : Char) ∈ (trim s).takeWhile (· ≠ ',') :=
        mem_of_mem_trim (hfp ▸ mem_of_mem_trim hm)
      have h2 := List.mem_takeWhile_imp h1
      simp at h2
    have hstr : str "," = [','] := rfl
    rw [hstr]
    exact strHas_single_eq_false this
  calc parseSet s t = parseSetFuel (s.length + 1) s t := rfl
    _ = parseSetFuel (k + 1 + 1) s t := by rw [hk]
    _ = parseSetFuel (k + 1) fp t := by
        conv_lhs => rw [parseSetFuel]
        simp only [hfc, hne, hc, hp, Bool.true_and, if_true, Bool.false_eq_true, if_false]
    _ = parseSetFuel (fp.length + 1) fp t := parseSetFuel_eq_of_nocomma k _ fp t hfpq hfpc
    _ = parseSet fp t := rfl

/-- Witness for `parseSet_distinct_first_only` at the concrete input
`"100kg A, /"`. -/
theorem parseSet_distinct_first_only_witness :
    parseSet (str "100kg A, /") (some (.reps 8)) =
      parseSet (trim ((trim (str "100kg A, /")).takeWhile (· ≠ ','))) (some (.reps 8)) :=
  parseSet_distinct_first_only (str "100kg A, /") (some (.reps 8))
    (by decide) (by decide) (by decide)

theorem takeWhile_dropWhile_append {p : Char → Bool} (l r : Str)
    (hl : l.all p = true) (hr : ∀ c ∈ r.head?, p c = false) :
    (l ++ r).takeWhile p = l ∧ (l ++ r).dropWhile p = r := by
  induction l with
  | nil =>
    cases r with
    | nil => exact ⟨rfl, rfl⟩
    | cons c cs =>
      have := hr c rfl
      simp [List.takeWhile, List.dropWhile, this]
  | cons x xs ih =>
    simp only [List.all_cons, Bool.and_eq_true] at hl
    have h2 := ih hl.2
    simp [List.takeWhile_cons, List.dropWhile_cons, hl.1, h2.1, h2.2]

theorem matchTimeTarget_append_min (ds : Str) (h1 : ds ≠ [])
    (h2 : ds.all Char.isDigit = true) :
    matchTimeTarget (ds ++ str "min") = some (digitsToInt ds, .min) := by
  obtain ⟨tw, dw⟩ := takeWhile_dropWhile_append ds (str "min") h2
    (by intro c hc; cases hc; decide)
  have hne : ds.isEmpty = false := by cases ds with
    | nil => exact absurd rfl h1
    | cons a l => rfl
  simp only [matchTimeTarget, tw, dw, hne, Bool.false_eq_true, if_false]
  rfl

theorem matchTimeTarget_append_s (ds : Str) (h1 : ds ≠ [])
    (h2 : ds.all Char.isDigit = true) :
    matchTimeTarget (ds ++ str "s") = some (digitsToInt ds, .s) := by
  obtain ⟨tw, dw⟩ := takeWhile_dropWhile_append ds (str "s") h2
    (by intro c hc; cases hc; decide)
  have hne : ds.isEmpty = false := by cases ds with
    | nil => exact absurd rfl h1
    | cons a l => rfl
  simp only [matchTimeTarget, tw, dw, hne, Bool.false_eq_true, if_false]
  rfl

/-- **C7.** `parseTarget`: a (trimmed) target string consisting of an
integer immediately followed by `min` or `s` yields a time target with
that value and unit; any string on which the anchored time pattern fails
yields a reps target whose count is the JavaScript-parsed integer, and
non-numeric input (where `parseInt` gives `NaN`) yields count `0` rather
than an error. -/
theorem parseTarget_spec (s : Str) :
    (∀ ds : Str, ds ≠ [] → ds.all Char.isDigit = true →
      (trim s = ds ++ str "min" → parseTarget s = .time ⟨digitsToInt ds, .min⟩) ∧
      (trim s = ds ++ str "s" → parseTarget s = .time ⟨digitsToInt ds, .s⟩)) ∧
    (matchTimeTarget (trim s) = none → parseTarget s = .reps (jsParseIntOr0 (trim s))) ∧
    (matchTimeTarget (trim s) = none → jsParseInt (trim s) = none →
      parseTarget s = .reps 0) := by
  refine ⟨fun ds h1 h2 => ⟨fun heq => ?_, fun heq => ?_⟩, fun h => ?_, fun h h2 => ?_⟩
  · simp [parseTarget, heq, matchTimeTarget_append_min ds h1 h2]
  · simp [parseTarget, heq, matchTimeTarget_append_s ds h1 h2]
  · simp [parseTarget, h]
  · simp [parseTarget, h, jsParseIntOr0, h2]

/-! ## Resolver lemmas (for C6, C9 and the amended C2) -/

theorem mapWithIndexGo_get? (f : Nat → α → β) :
    ∀ (l : List α) (n j : Nat),
      (mapWithIndexGo f n l).get? j = (l.get? j).map fun a => f (n + j) a := by
  intro l
  induction l with
  | nil => intro n j; rfl
  | cons a as ih =>
    intro n j
    cases j with
    | zero => simp [mapWithIndexGo]
    | succ k =>
      have hadd : n + 1 + k = n + (k + 1) := by omega
      show (mapWithIndexGo f (n + 1) as).get? k = _
      rw [ih (n + 1) k, hadd, List.get?_cons_succ]

theorem mapWithIndex_get? (f : Nat → α → β) (l : List α) (j : Nat) :
    (mapWithIndex f l).get? j = (l.get? j).map (f j) := by
  have h := mapWithIndexGo_get? f l 0 j
  simpa [mapWithIndex] using h

theorem mapWithIndexGo_length (f : Nat → α → β) :
    ∀ (l : List α) (n : Nat), (mapWithIndexGo f n l).length = l.length := by
  intro l
  induction l with
  | nil => intro n; rfl
  | cons a as ih => intro n; simp [mapWithIndexGo, ih]

theorem mapWithIndex_length (f : Nat → α → β) (l : List α) :
    (mapWithIndex f l).length = l.length :=
  mapWithIndexGo_length f l 0

theorem resolveEffort_not_repeat (t : TargetType) (pe : List Effort) (j : Nat)
    (e : Effort) (h : e.isRepeat = false) : resolveEffort t pe j e = e := by
  simp [resolveEffort, h]

theorem resolveEffort_hit (t : TargetType) (pes : List Effort) (j : Nat)
    (e pe : Effort) (hrep : e.isRepeat = true) (hpe : pes.get? j = some pe) :
    resolveEffort t pes j e =
      ⟨pe.load,
       (match pe.result, e.result with
        | .reps pc ps, .reps c s =>
          if s = .unset then .reps pc ps
          else if s = .C ∧ c = 0 then .reps 0 s
          else .reps c s
        | .time pd ps, .time d s =>
          if s = .unset then .time pd ps
          else if s = .C ∧ d.value = 0 then .time ⟨0, pd.unit⟩ s
          else .time d s
        | _, _ => e.result),
       false⟩ := by
  unfold resolveEffort
  rw [hrep, if_pos rfl, hpe]

theorem resolveSetsGo_length (t : TargetType) :
    ∀ (l : List TrainingSet) (prev : TrainingSet),
      (resolveSetsGo t prev l).length = l.length := by
  intro l
  induction l with
  | nil => intro prev; rfl
  | cons c r ih => intro prev; simp [resolveSetsGo, ih]

/-- Adjacency of the resolver output: the set at position `i+1` of the
output is the step applied to the output set at position `i` and the
input set at position `i+1`. -/
theorem resolveOut_adjacent (t : TargetType) :
    ∀ (rest : List TrainingSet) (first cur : TrainingSet) (i : Nat),
      rest.get? i = some cur →
      ∃ p, (first :: resolveSetsGo t first rest).get? i = some p ∧
        (first :: resolveSetsGo t first rest).get? (i + 1) =
          some (resolveSetStep t p cur) := by
  intro rest
  induction rest with
  | nil => intro first cur i h; simp at h
  | cons c0 r ih =>
    intro first cur i h
    cases i with
    | zero =>
      rw [List.get?_cons_zero] at h
      injection h with h
      subst h
      refine ⟨first, rfl, ?_⟩
      show (resolveSetsGo t first (c0 :: r)).get? 0 = _
      rw [resolveSetsGo]
      rfl
    | succ k =>
      have h' : r.get? k = some cur := by simpa using h
      obtain ⟨p, hp1, hp2⟩ := ih (resolveSetStep t first c0) cur k h'
      refine ⟨p, ?_, ?_⟩
      · rw [List.get?_cons_succ]
        simpa [resolveSetsGo] using hp1
      · rw [List.get?_cons_succ]
        simpa [resolveSetsGo] using hp2

/-- Shape of the resolver output: each output set is the step applied to
the corresponding input set for some previous effort list. -/
theorem resolveOut_shape (t : TargetType) :
    ∀ (rest : List TrainingSet) (first : TrainingSet) (i : Nat),
      ∃ pe : List Effort,
        (resolveSetsGo t first rest).get? i =
          (rest.get? i).map fun cur =>
            (⟨mapWithIndex (resolveEffort t pe) cur.efforts, cur.comment⟩ : TrainingSet) := by
  intro rest
  induction rest with
  | nil => intro first i; exact ⟨[], rfl⟩
  | cons c0 r ih =>
    intro first i
    cases i with
    | zero => exact ⟨first.efforts, by simp [resolveSetsGo, resolveSetStep]⟩
    | succ k =>
      obtain ⟨pe, hpe⟩ := ih (resolveSetStep t first c0) k
      exact ⟨pe, by simpa [resolveSetsGo] using hpe⟩

theorem processRepeatEfforts_frame_fields (ex : Exercise) :
    (processRepeatEfforts ex).name = ex.name ∧
    (processRepeatEfforts ex).targetSets = ex.targetSets ∧
    (processRepeatEfforts ex).target = ex.target ∧
    (processRepeatEfforts ex).comment = ex.comment := by
  unfold processRepeatEfforts
  split
  · exact ⟨rfl, rfl, rfl, rfl⟩
  · split
    · exact ⟨rfl, rfl, rfl, rfl⟩
    · exact ⟨rfl, rfl, rfl, rfl⟩

theorem processRepeatEfforts_sets (ex : Exercise) (first : TrainingSet)
    (rest : List TrainingSet) (hs : ex.sets = first :: rest) (hrne : rest ≠ []) :
    (processRepeatEfforts ex).sets = first :: resolveSetsGo ex.target first rest := by
  have hlen : ¬ ex.sets.length ≤ 1 := by
    rw [hs]
    cases rest with
    | nil => exact absurd rfl hrne
    | cons a l => simp
  unfold processRepeatEfforts
  rw [if_neg hlen, hs]

/-- **C9.** The repeat resolver is a frame-preserving pass: the
exercise's name, target sets, target, comment, number and order of sets,
set comments, per-set effort counts and the first set itself are
unchanged, and every effort whose repeat flag is unset is returned
exactly as it was. -/
theorem processRepeat_frame (ex : Exercise) :
    (processRepeatEfforts ex).name = ex.name ∧
    (processRepeatEfforts ex).targetSets = ex.targetSets ∧
    (processRepeatEfforts ex).target = ex.target ∧
    (processRepeatEfforts ex).comment = ex.comment ∧
    (processRepeatEfforts ex).sets.length = ex.sets.length ∧
    (processRepeatEfforts ex).sets.get? 0 = ex.sets.get? 0 ∧
    ∀ i,
      (((processRepeatEfforts ex).sets.get? i).map TrainingSet.comment =
        (ex.sets.get? i).map TrainingSet.comment) ∧
      (((processRepeatEfforts ex).sets.get? i).map (fun st => st.efforts.length) =
        (ex.sets.get? i).map (fun st => st.efforts.length)) ∧
      ∀ j e, (ex.sets.get? i).bind (fun st => st.efforts.get? j) = some e →
        e.isRepeat = false →
        ((processRepeatEfforts ex).sets.get? i).bind (fun st => st.efforts.get? j) = some e := by
  obtain ⟨hn, hts, htg, hcm⟩ := processRepeatEfforts_frame_fields ex
  by_cases hlen : ex.sets.length ≤ 1
  · have hout : processRepeatEfforts ex = ex := by
      unfold processRepeatEfforts
      rw [if_pos hlen]
    rw [hout]
    exact ⟨rfl, rfl, rfl, rfl, rfl, rfl, fun i => ⟨rfl, rfl, fun j e he _ => he⟩⟩
  · cases hs : ex.sets with
    | nil => rw [hs] at hlen; simp at hlen
    | cons first rest =>
      have hrne : rest ≠ [] := by
        intro h
        rw [hs, h] at hlen
        simp at hlen
      have hout : (processRepeatEfforts ex).sets = first :: resolveSetsGo ex.target first rest :=
        processRepeatEfforts_sets ex first rest hs hrne
      refine ⟨hn, hts, htg, hcm, ?_, ?_, ?_⟩
      · rw [hout]; simp [resolveSetsGo_length]
      · rw [hout]; rfl
      · intro i
        cases i with
        | zero =>
          rw [hout]
          exact ⟨rfl, rfl, fun j e he _ => he⟩
        | succ k =>
          rw [hout]
          simp only [List.get?_cons_succ]
          obtain ⟨pe, hpe⟩ := resolveOut_shape ex.target rest first k
          rw [hpe]
          cases hr : rest.get? k with
          | none => exact ⟨rfl, rfl, fun j e he _ => by simp at he⟩
          | some cur =>
            refine ⟨rfl, by simp [mapWithIndex_length], ?_⟩
            intro j e he hrep
            simp only [Option.map_some', Option.some_bind] at he ⊢
            rw [mapWithIndex_get?, he]
            simp [resolveEffort_not_repeat ex.target pe j e hrep]

/-- Witness for `processRepeat_frame`: the unchanged-effort clause applied
at a concrete two-set exercise with a non-repeat effort in the second
set. -/
theorem processRepeat_frame_witness :
    ((processRepeatEfforts
        ⟨str "E", 2, .reps 8,
         [⟨[⟨some ⟨45, .kg⟩, .reps 8 .A, false⟩], none⟩,
          ⟨[⟨some ⟨40, .kg⟩, .reps 6 .C, false⟩], none⟩], none⟩).sets.get? 1).bind
      (fun st => st.efforts.get? 0) = some ⟨some ⟨40, .kg⟩, .reps 6 .C, false⟩ :=
  (((processRepeat_frame
      ⟨str "E", 2, .reps 8,
       [⟨[⟨some ⟨45, .kg⟩, .reps 8 .A, false⟩], none⟩,
        ⟨[⟨some ⟨40, .kg⟩, .reps 6 .C, false⟩], none⟩], none⟩).2.2.2.2.2.2 1).2.2 0
    ⟨some ⟨40, .kg⟩, .reps 6 .C, false⟩ (by decide) (by decide))

/-- **C6.** The repeat resolver's copy step: for a repeat-flagged effort
at position `j` of set `i` (`i ≥ 1`) with a corresponding effort at
position `j` of the (resolved) set `i−1`, the output effort copies the
previous load verbatim and clears the flag; when both results have the
same kind and the repeat effort's state is unset the previous state and
value are copied entirely; an explicit `C` with a zero value keeps state
`C` and a zero value; any other explicit state leaves the result
untouched. -/
theorem processRepeat_copies (ex : Exercise) (i j : Nat) (hi : 0 < i)
    (e pe e' : Effort)
    (hin : (ex.sets.get? i).bind (fun st => st.efforts.get? j) = some e)
    (hrep : e.isRepeat = true)
    (hprev : ((processRepeatEfforts ex).sets.get? (i - 1)).bind
      (fun st => st.efforts.get? j) = some pe)
    (hout : ((processRepeatEfforts ex).sets.get? i).bind
      (fun st => st.efforts.get? j) = some e') :
    e'.load = pe.load ∧ e'.isRepeat = false ∧
    (sameKind pe.result e.result = true → resultState e.result = .unset →
      e'.result = pe.result) ∧
    (resultState e.result = .C → resultValue e.result = 0 →
      resultState e'.result = .C ∧ resultValue e'.result = 0) ∧
    (resultState e.result ≠ .unset →
      ¬(resultState e.result = .C ∧ resultValue e.result = 0) →
      e'.result = e.result) := by
  obtain ⟨stin, hst, heff⟩ : ∃ st, ex.sets.get? i = some st ∧ st.efforts.get? j = some e := by
    cases hq : ex.sets.get? i with
    | none => rw [hq] at hin; simp at hin
    | some st => rw [hq] at hin; exact ⟨st, rfl, by simpa using hin⟩
  have hilen : i < ex.sets.length := by
    by_contra hcon
    rw [List.get?_eq_none.mpr (by omega)] at hst
    exact absurd hst (by simp)
  have hlen : ¬ ex.sets.length ≤ 1 := by omega
  cases hs : ex.sets with
  | nil => rw [hs] at hilen; simp at hilen
  | cons first rest =>
    have hrne : rest ≠ [] := by
      intro h
      rw [hs, h] at hlen
      simp at hlen
    have hout' : (processRepeatEfforts ex).sets = first :: resolveSetsGo ex.target first rest :=
      processRepeatEfforts_sets ex first rest hs hrne
    obtain ⟨k, hk⟩ : ∃ k, i = k + 1 := ⟨i - 1, by omega⟩
    subst hk
    have hrget : rest.get? k = some stin := by
      rw [hs] at hst; simpa using hst
    obtain ⟨p, hp1, hp2⟩ := resolveOut_adjacent ex.target rest first stin k hrget
    rw [hout'] at hprev hout
    simp only [Nat.add_sub_cancel] at hprev
    rw [hp1] at hprev
    rw [hp2] at hout
    simp only [Option.some_bind] at hprev hout
    have hpe : p.efforts.get? j = some pe := hprev
    have he' : e' = resolveEffort ex.target p.efforts j e := by
      rw [resolveSetStep] at hout
      simp only at hout
      rw [mapWithIndex_get? (resolveEffort ex.target p.efforts) stin.efforts j, heff] at hout
      simpa using hout.symm
    rw [he', resolveEffort_hit ex.target p.efforts j e pe hrep hpe]
    cases hper : pe.result with
    | reps pc ps =>
      cases her : e.result with
      | reps c s =>
        refine ⟨rfl, rfl, fun _ hsu => ?_, fun hsc hv0 => ?_, fun hsne hnc0 => ?_⟩
        · have hsu' : s = CompletionState.unset := hsu
          simp [hper, her, hsu']
        · have hsc' : s = CompletionState.C := hsc
          have hv0' : c = 0 := hv0
          simp [hper, her, hsc', hv0', resultState, resultValue]
        · have h1 : ¬ s = CompletionState.unset := hsne
          have h2 : ¬ (s = CompletionState.C ∧ c = 0) := hnc0
          simp [hper, her, h1, h2]
      | time d s =>
        refine ⟨rfl, rfl, fun hsk _ => ?_, fun hsc hv0 => ?_, fun _ _ => ?_⟩
        · simp [sameKind, resultIsTime, hper, her] at hsk
        · have hsc' : s = CompletionState.C := hsc
          have hv0' : d.value = 0 := hv0
          simp [hper, her, hsc', hv0', resultState, resultValue]
        · simp [hper, her]
    | time pd ps =>
      cases her : e.result with
      | reps c s =>
        refine ⟨rfl, rfl, fun hsk _ => ?_, fun hsc hv0 => ?_, fun _ _ => ?_⟩
        · simp [sameKind, resultIsTime, hper, her] at hsk
        · have hsc' : s = CompletionState.C := hsc
          have hv0' : c = 0 := hv0
          simp [hper, her, hsc', hv0', resultState, resultValue]
        · simp [hper, her]
      | time d s =>
        refine ⟨rfl, rfl, fun _ hsu => ?_, fun hsc hv0 => ?_, fun hsne hnc0 => ?_⟩
        · have hsu' : s = CompletionState.unset := hsu
          simp [hper, her, hsu']
        · have hsc' : s = CompletionState.C := hsc
          have hv0' : d.value = 0 := hv0
          simp [hper, her, hsc', hv0', resultState, resultValue]
        · have h1 : ¬ s = CompletionState.unset := hsne
          have h2 : ¬ (s = CompletionState.C ∧ d.value = 0) := hnc0
          simp [hper, her, h1, h2]

/-- Witness for `processRepeat_copies`: the scenario-1 second set (an
explicit `C7` repeat marker) copies the 45 kg load from the first set,
clears the flag and keeps its explicit result. -/
theorem processRepeat_copies_witness :
    (⟨some ⟨45, .kg⟩, .reps 7 .C, false⟩ : Effort).load = some ⟨45, .kg⟩ ∧
    (⟨some ⟨45, .kg⟩, .reps 7 .C, false⟩ : Effort).isRepeat = false ∧
    (sameKind (.reps 8 .A) (.reps 7 .C) = true → resultState (.reps 7 .C) = .unset →
      (⟨some ⟨45, .kg⟩, .reps 7 .C, false⟩ : Effort).result = .reps 8 .A) ∧
    (resultState (.reps 7 .C) = .C → resultValue (.reps 7 .C) = 0 →
      resultState (⟨some ⟨45, .kg⟩, .reps 7 .C, false⟩ : Effort).result = .C ∧
        resultValue (⟨some ⟨45, .kg⟩, .reps 7 .C, false⟩ : Effort).result = 0) ∧
    (resultState (.reps 7 .C) ≠ .unset →
      ¬(resultState (.reps 7 .C) = .C ∧ resultValue (.reps 7 .C) = 0) →
      (⟨some ⟨45, .kg⟩, .reps 7 .C, false⟩ : Effort).result = .reps 7 .C) :=
  processRepeat_copies
    ⟨str "E", 2, .reps 8,
     [⟨[⟨some ⟨45, .kg⟩, .reps 8 .A, false⟩], none⟩,
      ⟨[⟨none, .reps 7 .C, true⟩], none⟩], none⟩
    1 0 (by decide) ⟨none, .reps 7 .C, true⟩ ⟨some ⟨45, .kg⟩, .reps 8 .A, false⟩
    ⟨some ⟨45, .kg⟩, .reps 7 .C, false⟩ (by decide) (by decide) (by decide) (by decide)

/-- Witness for `parseTarget_spec` at `"45s"`, `"1min"`, `"12"` and the
non-numeric `"abc"`. -/
theorem parseTarget_spec_witness :
    parseTarget (str "45s") = .time ⟨45, .s⟩ ∧
    parseTarget (str "1min") = .time ⟨1, .min⟩ ∧
    parseTarget (str "12") = .reps (jsParseIntOr0 (trim (str "12"))) ∧
    parseTarget (str "abc") = .reps 0 :=
  ⟨((parseTarget_spec (str "45s")).1 (str "45") (by decide) (by decide)).2 (by decide),
   ((parseTarget_spec (str "1min")).1 (str "1") (by decide) (by decide)).1 (by decide),
   (parseTarget_spec (str "12")).2.1 (by decide),
   (parseTarget_spec (str "abc")).2.2 (by decide) (by decide)⟩

/-! ## `parseEffort` branch analysis (for C10, the amended C3, and the
amended C2) -/

theorem mem_mapWithIndexGo {f : Nat → α → β} :
    ∀ {l : List α} {n : Nat} {b : β}, b ∈ mapWithIndexGo f n l →
      ∃ i a, a ∈ l ∧ b = f i a := by
  intro l
  induction l with
  | nil => intro n b h; simp [mapWithIndexGo] at h
  | cons x xs ih =>
    intro n b h
    rw [mapWithIndexGo] at h
    rcases List.mem_cons.mp h with h1 | h1
    · exact ⟨n, x, List.mem_cons_self _ _, h1⟩
    · obtain ⟨i, a, ha, hb⟩ := ih h1
      exact ⟨i, a, List.mem_cons_of_mem _ ha, hb⟩

theorem mem_mapWithIndex {f : Nat → α → β} {l : List α} {b : β}
    (h : b ∈ mapWithIndex f l) : ∃ i a, a ∈ l ∧ b = f i a :=
  mem_mapWithIndexGo h

theorem strHas_single_of_mem {c : Char} {s : Str} (h : c ∈ s) :
    strHas [c] s = true := by
  induction s with
  | nil => simp at h
  | cons x xs ih =>
    rcases List.mem_cons.mp h with h1 | h1
    · subst h1
      simp [strHas, strStarts]
    · simp [strHas, ih h1]

theorem matchRepeatState_slash {s : Str} {x : Char × Str}
    (h : matchRepeatState s = some x) : ('/' : Char) ∈ s := by
  unfold matchRepeatState at h
  cases hd : s.dropWhile isWS with
  | nil => rw [hd] at h; simp at h
  | cons c rest =>
    rw [hd] at h
    by_cases hc : c = '/'
    · subst hc
      exact (List.dropWhile_sublist (p := isWS) (l := s)).mem
        (hd ▸ List.mem_cons_self _ _)
    · exfalso
      cases hcc : c
      rw [hcc] at h hc
      simp_all

theorem matchRepeatState_abc {s : Str} {c : Char} {g : Str}
    (h : matchRepeatState s = some (c, g)) : isABC c = true ∧ c ∈ s := by
  unfold matchRepeatState at h
  split at h
  · next rest heq =>
    have hmem : ∀ x, x ∈ rest → x ∈ s := by
      intro x hx
      exact (List.dropWhile_sublist (p := isWS) (l := s)).mem
        (heq ▸ List.mem_cons_of_mem _ hx)
    split at h
    · split at h
      · split at h
        · next c1 rest3 heq2 =>
          split at h
          · next hABC =>
            injection h with h
            injection h with h1 h2
            subst h1
            refine ⟨hABC, hmem c1 ?_⟩
            exact (List.dropWhile_sublist isWS).mem (heq2 ▸ List.mem_cons_self c1 rest3)
          · simp at h
        · simp at h
      · simp at h
    · simp at h
  · simp at h

theorem findCompletion_none_no_abc {s : Str} (h : findCompletion s = none) :
    ∀ c ∈ s, isABC c = false := by
  induction s with
  | nil => intro c hc; simp at hc
  | cons x xs ih =>
    intro c hc
    rw [findCompletion] at h
    by_cases hx : isABC x
    · rw [if_pos hx] at h; simp at h
    · rw [if_neg hx] at h
      have hxs : findCompletion xs = none := by
        cases hq : findCompletion xs with
        | none => rfl
        | some v => rw [hq] at h; simp at h
      rcases List.mem_cons.mp hc with h1 | h1
      · subst h1; exact Bool.not_eq_true _ ▸ (by simpa using hx)
      · exact ih hxs c h1

theorem standardEffort_load (s : Str) (t : Option TargetType) :
    ∀ e ∈ standardEffort s t, e.load = stdLoad (stateResidual s) := by
  intro e he
  simp only [standardEffort, List.mem_singleton] at he
  subst he
  rfl

theorem dropEffort_load_unit (state : CompletionState) (completions : List Str)
    (nres : Nat) (remaining : Int) (i : Nat) (r : Str) (l : LoadValue)
    (h : (dropEffort state completions nres remaining i r).load = some l) :
    l.unit = .kg := by
  unfold dropEffort dropLoad at h
  cases hq : digitSearch r with
  | none => rw [hq] at h; simp at h
  | some ds =>
    rw [hq] at h
    simp only at h
    injection h with h
    rw [← h]

/-- **C10.** In the completion drop-set branch (a description containing
`/` and a completion-state letter) every parsed load is assigned unit
`kg` unconditionally; by contrast, the no-completion drop-set branch
gives unit `kg` only when the resistance token contains `kg`, and the
plain-effort branch only when the state-stripped residual contains
`kg`. -/
theorem parseEffort_load_units (s : Str) (t : Option TargetType) :
    (strHas (str "/") (trim s) = true → (findCompletion (trim s)).isSome →
      ∀ es, parseEffort s t = some es → ∀ e ∈ es, ∀ l, e.load = some l →
        l.unit = .kg) ∧
    (strHas (str "/") (trim s) = true → findCompletion (trim s) = none →
      trim s ≠ ['/'] →
      parseEffort s t = some ((slashPieces (trim s)).map dropPlainEffort)) ∧
    (∀ r l, (dropPlainEffort r).load = some l →
      l.unit = if strHas (str "kg") r then .kg else .unitless) ∧
    (strHas (str "/") (trim s) = false →
      ∀ es, parseEffort s t = some es → ∀ e ∈ es, ∀ l, e.load = some l →
        l.unit = if strHas (str "kg") (stateResidual (trim s)) then .kg
                 else .unitless) := by
  refine ⟨?_, ?_, ?_, ?_⟩
  · intro hslash hcomp es hp e he l hl
    have hne : (trim s).isEmpty = false := by
      cases htr : trim s with
      | nil => rw [htr] at hslash; exact absurd hslash (by decide)
      | cons a lrest => rfl
    cases hmrs : matchRepeatState (trim s) with
    | some v =>
      obtain ⟨sc, cv⟩ := v
      simp only [parseEffort, hne, hmrs, Bool.false_eq_true, if_false] at hp
      injection hp with hp
      subst hp
      simp only [List.mem_singleton] at he
      subst he
      simp at hl
    | none =>
      by_cases hb : trim s = ['/']
      · exfalso
        rw [hb] at hcomp
        exact absurd hcomp (by decide)
      · cases hfc : findCompletion (trim s) with
        | none => rw [hfc] at hcomp; exact absurd hcomp (by decide)
        | some v =>
          obtain ⟨rp, sc, cp⟩ := v
          simp only [parseEffort, hne, hmrs, hb, hslash, hfc, Bool.false_eq_true,
            if_false, if_true] at hp
          injection hp with hp
          subst hp
          unfold dropCompletionEfforts at he
          obtain ⟨i, r, -, hbm⟩ := mem_mapWithIndex he
          subst hbm
          exact dropEffort_load_unit _ _ _ _ _ _ _ hl
  · intro hslash hcomp hnb
    have hne : (trim s).isEmpty = false := by
      cases htr : trim s with
      | nil => rw [htr] at hslash; exact absurd hslash (by decide)
      | cons a lrest => rfl
    have hmrs : matchRepeatState (trim s) = none := by
      cases hq : matchRepeatState (trim s) with
      | none => rfl
      | some v =>
        obtain ⟨c, g⟩ := v
        obtain ⟨habc, hmem⟩ := matchRepeatState_abc hq
        have := findCompletion_none_no_abc hcomp c hmem
        rw [habc] at this
        simp at this
    simp only [parseEffort, hne, hmrs, hnb, hslash, hcomp, Bool.false_eq_true,
      if_false, if_true]
  · intro r l h
    unfold dropPlainEffort at h
    cases hq : digitSearch r with
    | none => rw [hq] at h; simp at h
    | some ds =>
      rw [hq] at h
      simp only at h
      injection h with h
      rw [← h]
  · intro hslash es hp e he l hl
    have hmrs : matchRepeatState (trim s) = none := by
      cases hq : matchRepeatState (trim s) with
      | none => rfl
      | some v =>
        exact absurd (strHas_single_of_mem (matchRepeatState_slash hq))
          (by rw [show [('/' : Char)] = str "/" from rfl, hslash]; simp)
    have hb : ¬ trim s = ['/'] := by
      intro hb
      rw [hb] at hslash
      exact absurd hslash (by decide)
    by_cases hne : (trim s).isEmpty = true
    · simp only [parseEffort, hne, if_true] at hp
      simp at hp
    · simp only [parseEffort, hne, hmrs, hb, hslash, Bool.false_eq_true,
        if_false] at hp
      injection hp with hp
      subst hp
      have hload := standardEffort_load (trim s) t e he
      rw [hload] at hl
      unfold stdLoad at hl
      split at hl
      · cases hq : digitSearch (stateResidual (trim s)) with
        | none => rw [hq] at hl; simp at hl
        | some ds =>
          rw [hq] at hl
          simp only at hl
          injection hl with hl
          rw [← hl]
      · simp at hl

/-! ## Pipeline invariants for the amended C2: every stored set is
non-empty and carries a repeat flag only as a one-element effort list -/

theorem parseEffort_repeat_singleton (s : Str) (t : Option TargetType)
    (es : List Effort) (hp : parseEffort s t = some es) :
    ∀ e ∈ es, e.isRepeat = true → es = [e] := by
  intro e he hrep
  by_cases hne : (trim s).isEmpty = true
  · simp only [parseEffort, hne, if_true] at hp
    simp at hp
  · cases hmrs : matchRepeatState (trim s) with
    | some v =>
      obtain ⟨sc, cv⟩ := v
      simp only [parseEffort, hne, hmrs, Bool.false_eq_true, if_false] at hp
      injection hp with hp
      subst hp
      simp only [List.mem_singleton] at he
      subst he
      rfl
    | none =>
      by_cases hb : trim s = ['/']
      · simp only [parseEffort, hne, hmrs, hb, Bool.false_eq_true, if_false] at hp
        rw [if_pos trivial] at hp
        injection hp with hp
        subst hp
        simp only [List.mem_singleton] at he
        subst he
        rfl
      · by_cases hsl : strHas (str "/") (trim s) = true
        · cases hfc : findCompletion (trim s) with
          | some v =>
            obtain ⟨rp, sc, cp⟩ := v
            simp only [parseEffort, hne, hmrs, hb, hsl, hfc, Bool.false_eq_true,
              if_false, if_true] at hp
            injection hp with hp
            subst hp
            unfold dropCompletionEfforts at he
            obtain ⟨i, r, -, hbm⟩ := mem_mapWithIndex he
            subst hbm
            exact absurd hrep (by simp [dropEffort])
          | none =>
            simp only [parseEffort, hne, hmrs, hb, hsl, hfc, Bool.false_eq_true,
              if_false, if_true] at hp
            injection hp with hp
            subst hp
            obtain ⟨r, -, hbm⟩ := List.mem_map.mp he
            subst hbm
            exact absurd hrep (by simp [dropPlainEffort])
        · simp only [parseEffort, hne, hmrs, hb, hsl, Bool.false_eq_true,
            if_false] at hp
          injection hp with hp
          subst hp
          simp only [standardEffort, List.mem_singleton] at he
          subst he
          rfl

theorem parseSetFuel_SetOK :
    ∀ (fuel : Nat) (s : Str) (t : Option TargetType) (st : TrainingSet),
      parseSetFuel fuel s t = some st → SetOK st := by
  intro fuel
  induction fuel with
  | zero => intro s t st h; exact absurd h (by simp [parseSetFuel])
  | succ f ih =>
    intro s t st h
    simp only [parseSetFuel] at h
    split at h
    · simp at h
    · split at h
      · exact ih _ t st h
      · split at h
        · next efforts heq =>
          split at h
          · simp at h
          · next hemp =>
            injection h with h
            subst h
            constructor
            · intro h0
              have h0' : efforts = [] := h0
              rw [h0'] at hemp
              exact hemp rfl
            · exact parseEffort_repeat_singleton _ t efforts heq
        · simp at h

theorem parseSet_SetOK (s : Str) (t : Option TargetType) (st : TrainingSet)
    (h : parseSet s t = some st) : SetOK st :=
  parseSetFuel_SetOK _ s t st h

theorem itemSets_SetOK (tg : TargetType) (item : Str) :
    ∀ st ∈ itemSets tg item, SetOK st := by
  intro st hst
  simp only [itemSets] at hst
  split at hst
  · obtain ⟨o, ho, hid⟩ := List.mem_filterMap.mp hst
    have ho' : o = some st := hid
    subst ho'
    obtain ⟨idx, piece, -, hbm⟩ := mem_mapWithIndex ho
    cases hq : parseEffort piece (some tg) with
    | none => rw [hq] at hbm; simp at hbm
    | some efforts =>
      rw [hq] at hbm
      simp only at hbm
      by_cases hemp : efforts.isEmpty = true
      · rw [if_pos hemp] at hbm; simp at hbm
      · rw [if_neg hemp] at hbm
        injection hbm with hbm
        subst hbm
        constructor
        · intro h0
          have h0' : efforts = [] := h0
          rw [h0'] at hemp
          exact hemp rfl
        · exact parseEffort_repeat_singleton _ (some tg) efforts hq
  · split at hst
    · next st' heq =>
      simp only [List.mem_singleton] at hst
      subst hst
      have hok := parseSet_SetOK _ (some tg) st' heq
      split
      · exact hok
      · exact hok
    · simp at hst

theorem flushItems_ExOK {ex : Exercise} (h : ExOK ex) (items : List Str) :
    ExOK (flushItems ex items) := by
  intro st hst
  unfold flushItems at hst
  simp only at hst
  rcases List.mem_append.mp hst with h1 | h1
  · exact h st h1
  · obtain ⟨l2, hl2, hmem⟩ := List.mem_flatten.mp h1
    obtain ⟨item, -, hit⟩ := List.mem_map.mp hl2
    exact itemSets_SetOK ex.target item st (hit ▸ hmem)

theorem flushState_StateOK {st : ScanState} (h : StateOK st) :
    StateOK (flushState st) := by
  unfold flushState
  split
  · exact h
  · next ex rest heq =>
    intro ex' hx'
    rcases List.mem_cons.mp hx' with h1 | h1
    · subst h1
      exact flushItems_ExOK (h ex (heq ▸ List.mem_cons_self _ _)) st.items
    · exact h ex' (heq ▸ List.mem_cons_of_mem _ h1)

theorem createExercise_StateOK {st : ScanState} (h : StateOK st)
    (name ds tg detail : Str) : StateOK (createExercise st name ds tg detail) := by
  intro ex hx
  unfold createExercise at hx
  simp only at hx
  rcases List.mem_cons.mp hx with h1 | h1
  · subst h1
    intro st' hst'
    simp only at hst'
    split at hst'
    · obtain ⟨d, -, hd⟩ := List.mem_filterMap.mp hst'
      exact parseSet_SetOK _ _ st' hd
    · simp at hst'
  · exact h ex h1

theorem scanLine_StateOK {st : ScanState} (h : StateOK st) (l : Str) :
    StateOK (scanLine st l) := by
  simp only [scanLine]
  split
  · exact h
  · split
    · split
      · exact createExercise_StateOK (flushState_StateOK h) _ _ _ _
      · exact createExercise_StateOK h _ _ _ _
    · split
      · intro ex hx
        exact h ex hx
      · split
        · split
          · split
            · exact createExercise_StateOK (flushState_StateOK h) _ _ _ _
            · exact createExercise_StateOK h _ _ _ _
          · split
            · intro ex hx
              exact flushState_StateOK h ex hx
            · intro ex hx
              exact h ex hx
        · exact h

theorem foldl_scanLine_StateOK :
    ∀ (lines : List Str) (st : ScanState), StateOK st →
      StateOK (lines.foldl scanLine st) := by
  intro lines
  induction lines with
  | nil => intro st h; exact h
  | cons l ls ih => intro st h; exact ih _ (scanLine_StateOK h l)

theorem parseSession_exercises (txt : Str) (ex : Exercise)
    (hx : ex ∈ (parseSession txt).exercises) :
    ∃ ex₀, ExOK ex₀ ∧ ex = processRepeatEfforts ex₀ := by
  unfold parseSession at hx
  simp only at hx
  obtain ⟨ex₀, hmem, hpe⟩ := List.mem_map.mp hx
  rw [List.mem_reverse] at hmem
  have hfold : StateOK ((splitOnChar '\n' txt).foldl scanLine ⟨[], false, []⟩) :=
    foldl_scanLine_StateOK _ _ (fun ex hx => by simp at hx)
  have hfinal : StateOK (if !((splitOnChar '\n' txt).foldl scanLine
      ⟨[], false, []⟩).exercisesRev.isEmpty &&
      ((splitOnChar '\n' txt).foldl scanLine ⟨[], false, []⟩).inList &&
      !((splitOnChar '\n' txt).foldl scanLine ⟨[], false, []⟩).items.isEmpty then
        flushState ((splitOnChar '\n' txt).foldl scanLine ⟨[], false, []⟩)
      else ((splitOnChar '\n' txt).foldl scanLine ⟨[], false, []⟩)) := by
    split
    · exact flushState_StateOK hfold
    · exact hfold
  exact ⟨ex₀, hfinal ex₀ hmem, hpe.symm⟩

theorem processRepeatEfforts_short (ex : Exercise) (h : ex.sets.length ≤ 1) :
    processRepeatEfforts ex = ex := by
  unfold processRepeatEfforts
  rw [if_pos h]

theorem resolveOut_len (t : TargetType) (first : TrainingSet)
    (rest : List TrainingSet) (k : Nat) (stp : TrainingSet)
    (h : (first :: resolveSetsGo t first rest).get? k = some stp) :
    ∃ stin, (first :: rest).get? k = some stin ∧
      stp.efforts.length = stin.efforts.length := by
  cases k with
  | zero =>
    rw [List.get?_cons_zero] at h
    injection h with h
    subst h
    exact ⟨first, rfl, rfl⟩
  | succ k' =>
    rw [List.get?_cons_succ] at h
    obtain ⟨pe, hpe⟩ := resolveOut_shape t rest first k'
    rw [hpe] at h
    cases hr : rest.get? k' with
    | none => rw [hr] at h; simp at h
    | some stin =>
      rw [hr] at h
      simp only [Option.map_some'] at h
      injection h with h
      subst h
      exact ⟨stin, by rw [List.get?_cons_succ]; exact hr, by simp [mapWithIndex_length]⟩

theorem processRepeat_no_flag (ex : Exercise) (hok : ExOK ex)
    (i j : Nat) (hi : 0 < i) (e' : Effort)
    (hout : ((processRepeatEfforts ex).sets.get? i).bind
      (fun st => st.efforts.get? j) = some e') :
    e'.isRepeat = false := by
  obtain ⟨stout, hsto, heo⟩ : ∃ st, (processRepeatEfforts ex).sets.get? i = some st ∧
      st.efforts.get? j = some e' := by
    cases hq : (processRepeatEfforts ex).sets.get? i with
    | none => rw [hq] at hout; simp at hout
    | some st => rw [hq] at hout; exact ⟨st, rfl, by simpa using hout⟩
  by_cases hlen : ex.sets.length ≤ 1
  · rw [processRepeatEfforts_short ex hlen] at hsto
    have hi2 : i < ex.sets.length := by
      by_contra hcon
      rw [List.get?_eq_none.mpr (by omega)] at hsto
      exact absurd hsto (by simp)
    omega
  · cases hs : ex.sets with
    | nil => rw [hs] at hlen; simp at hlen
    | cons first rest =>
      have hrne : rest ≠ [] := by
        intro h0
        rw [hs, h0] at hlen
        simp at hlen
      have hsets : (processRepeatEfforts ex).sets = first :: resolveSetsGo ex.target first rest :=
        processRepeatEfforts_sets ex first rest hs hrne
      rw [hsets] at hsto
      obtain ⟨k, rfl⟩ : ∃ k, i = k + 1 := ⟨i - 1, by omega⟩
      have hgo : (resolveSetsGo ex.target first rest).get? k = some stout := by
        simpa using hsto
      have hklen : k < rest.length := by
        by_contra hcon
        rw [List.get?_eq_none.mpr (by rw [resolveSetsGo_length]; omega)] at hgo
        exact absurd hgo (by simp)
      obtain ⟨cur, hcur⟩ : ∃ cur, rest.get? k = some cur := by
        cases hq : rest.get? k with
        | none => rw [List.get?_eq_none] at hq; omega
        | some c => exact ⟨c, rfl⟩
      obtain ⟨p, hp1, hp2⟩ := resolveOut_adjacent ex.target rest first cur k hcur
      have hstep : stout = resolveSetStep ex.target p cur := by
        rw [hsto] at hp2
        exact Option.some.inj hp2
      have heff : (mapWithIndex (resolveEffort ex.target p.efforts) cur.efforts).get? j =
          some e' := by
        have := hstep ▸ heo
        exact this
      rw [mapWithIndex_get?] at heff
      cases hce : cur.efforts.get? j with
      | none => rw [hce] at heff; simp at heff
      | some e =>
        rw [hce] at heff
        simp only [Option.map_some'] at heff
        injection heff with heff
        by_cases hrep : e.isRepeat = true
        · have hcur_mem : cur ∈ ex.sets := by
            rw [hs]
            exact List.mem_cons_of_mem _ (List.get?_mem hcur)
          have hsok := hok cur hcur_mem
          have he_mem : e ∈ cur.efforts := List.get?_mem hce
          have hsing : cur.efforts = [e] := hsok.2 e he_mem hrep
          have hj : j = 0 := by
            rw [hsing] at hce
            cases j with
            | zero => rfl
            | succ j' => rw [List.get?_cons_succ] at hce; simp at hce
          subst hj
          obtain ⟨stin, hstin, hplen⟩ := resolveOut_len ex.target first rest k p hp1
          have hstin_mem : stin ∈ ex.sets := by
            rw [hs]
            exact List.get?_mem hstin
          have hin_ne := (hok stin hstin_mem).1
          have hplen0 : 0 < p.efforts.length := by
            rw [hplen]
            cases hq : stin.efforts with
            | nil => exact absurd hq hin_ne
            | cons a l2 => simp
          obtain ⟨pe0, hpe0⟩ : ∃ pe0, p.efforts.get? 0 = some pe0 := by
            cases hq : p.efforts with
            | nil => rw [hq] at hplen0; simp at hplen0
            | cons a l2 => exact ⟨a, rfl⟩
          rw [← heff, resolveEffort_hit ex.target p.efforts 0 e pe0 hrep hpe0]
        · have hrep' : e.isRepeat = false := by
            cases hq : e.isRepeat
            · rfl
            · exact absurd hq hrep
          rw [← heff, resolveEffort_not_repeat _ _ _ _ hrep']
          exact hrep'

/-- **C2, amended.** After the repeat-resolver pass, no effort in any set
other than the first set of its exercise has `isRepeat` set; efforts of
an exercise's first set (in particular of an exercise with a single set)
may keep the flag, because `processRepeatEfforts` returns early for
exercises with at most one set and its loop starts at the second set. -/
theorem parseContent_no_repeat_after_first (content : Str)
    (sess : TrainingSession) (hs : sess ∈ parseContent content)
    (ex : Exercise) (hx : ex ∈ sess.exercises)
    (i j : Nat) (hi : 0 < i) (e : Effort)
    (he : (ex.sets.get? i).bind (fun st => st.efforts.get? j) = some e) :
    e.isRepeat = false := by
  unfold parseContent at hs
  obtain ⟨txt, -, hsess⟩ := List.mem_map.mp hs
  subst hsess
  obtain ⟨ex₀, hok, hpe⟩ := parseSession_exercises txt ex hx
  subst hpe
  exact processRepeat_no_flag ex₀ hok i j hi e he

/-- Witness for `parseContent_no_repeat_after_first` at
`"E (2x8) : 9kg A, /"`: the second set's resolved effort is unflagged. -/
theorem parseContent_no_repeat_after_first_witness :
    (⟨some ⟨9, .kg⟩, .reps 8 .A, false⟩ : Effort).isRepeat = false :=
  parseContent_no_repeat_after_first (str "E (2x8) : 9kg A, /")
    ⟨[], none,
     [⟨str "E", 2, .reps 8,
       [⟨[⟨some ⟨9, .kg⟩, .reps 8 .A, false⟩], none⟩,
        ⟨[⟨some ⟨9, .kg⟩, .reps 8 .A, false⟩], none⟩], none⟩], some []⟩
    (by decide)
    ⟨str "E", 2, .reps 8,
     [⟨[⟨some ⟨9, .kg⟩, .reps 8 .A, false⟩], none⟩,
      ⟨[⟨some ⟨9, .kg⟩, .reps 8 .A, false⟩], none⟩], none⟩
    (by decide) 1 0 (by decide)
    ⟨some ⟨9, .kg⟩, .reps 8 .A, false⟩ (by decide)

theorem resultFromTarget_kind (t : TargetType) (st : CompletionState) :
    resultIsTime (resultFromTarget (some t) st) = targetIsTime t := by
  cases t <;> rfl

theorem ctime_none_of_not_cTimeCase (s : Str) (h : cTimeCase s = false) :
    (if (stateAndValue s).1 = .C ∧ !(stateAndValue s).2.isEmpty then
      timeSearch (stateAndValue s).2 else none) = none := by
  unfold cTimeCase at h
  unfold stateAndValue
  cases hfs : findState s with
  | none => simp
  | some v =>
    obtain ⟨b, c, g2, a⟩ := v
    rw [hfs] at h
    dsimp only at h ⊢
    by_cases hcond : stateOfChar c = CompletionState.C ∧ (!List.isEmpty g2) = true
    · rw [if_pos hcond]
      have h1 : decide (stateOfChar c = CompletionState.C) = true := decide_eq_true hcond.1
      rw [h1, hcond.2] at h
      cases htq : timeSearch g2 with
      | none => rfl
      | some v2 => rw [htq] at h; simp at h
    · rw [if_neg hcond]

theorem standardResult_kind (state : CompletionState) (cv : Str) (t : TargetType)
    (hct : (if state = .C ∧ !cv.isEmpty then timeSearch cv else none) = none) :
    resultIsTime (standardResult state cv (some t)) = targetIsTime t := by
  simp only [standardResult, hct]
  cases t with
  | reps c =>
    split
    · exact resultFromTarget_kind _ _
    · split
      · exact resultFromTarget_kind _ _
      · rfl
  | time d =>
    split
    · exact resultFromTarget_kind _ _
    · split
      · exact resultFromTarget_kind _ _
      · split
        all_goals split <;> rfl

theorem bareRepeatEffort_kind (t : TargetType) :
    resultIsTime (bareRepeatEffort (some t)).result = targetIsTime t := by
  cases t <;> rfl

/-- **C3, amended.** Result/target variant agreement holds for the bare
repeat marker and for every `/`-free description whose state match is not
`C` with a time-valued suffix; the carved-out cases — drop-set
descriptions (typed by their completion values), `C`-with-time-value
plain efforts, and repeat markers carrying a time-valued state — may
produce a result whose variant differs from the exercise's target
variant. -/
theorem parseEffort_kind_agrees (s : Str) (t : TargetType) :
    (trim s = ['/'] → ∀ es, parseEffort s (some t) = some es → ∀ e ∈ es,
      resultIsTime e.result = targetIsTime t) ∧
    (strHas (str "/") (trim s) = false → cTimeCase (trim s) = false →
      ∀ es, parseEffort s (some t) = some es → ∀ e ∈ es,
        resultIsTime e.result = targetIsTime t) := by
  constructor
  · intro hb es hp e he
    have hm : matchRepeatState (['/'] : Str) = none := by decide
    simp only [parseEffort, hb] at hp
    rw [if_neg (show ¬(List.isEmpty (['/'] : Str) = true) from by decide)] at hp
    simp only [hm] at hp
    rw [if_pos trivial] at hp
    injection hp with hp
    subst hp
    simp only [List.mem_singleton] at he
    subst he
    exact bareRepeatEffort_kind t
  · intro hslash hctime es hp e he
    have hmrs : matchRepeatState (trim s) = none := by
      cases hq : matchRepeatState (trim s) with
      | none => rfl
      | some v =>
        exact absurd (strHas_single_of_mem (matchRepeatState_slash hq))
          (by rw [show [('/' : Char)] = str "/" from rfl, hslash]; simp)
    have hb : ¬ trim s = ['/'] := by
      intro hb
      rw [hb] at hslash
      exact absurd hslash (by decide)
    by_cases hne : (trim s).isEmpty = true
    · simp only [parseEffort, hne, if_true] at hp
      simp at hp
    · simp only [parseEffort, hne, hmrs, hb, hslash, Bool.false_eq_true,
        if_false] at hp
      injection hp with hp
      subst hp
      simp only [standardEffort, List.mem_singleton] at he
      subst he
      exact standardResult_kind _ _ t (ctime_none_of_not_cTimeCase (trim s) hctime)

/-- Witness for `parseEffort_kind_agrees` at the bare marker `"/"` under
a time target and the plain effort `"45kg A"` under a reps target. -/
theorem parseEffort_kind_agrees_witness :
    resultIsTime (EffortResult.time ⟨0, .min⟩ .unset) = targetIsTime (.time ⟨1, .min⟩) ∧
    resultIsTime (EffortResult.reps 8 .A) = targetIsTime (.reps 8) :=
  ⟨(parseEffort_kind_agrees (str "/") (.time ⟨1, .min⟩)).1 (by decide)
      [⟨none, .time ⟨0, .min⟩ .unset, true⟩] (by decide)
      ⟨none, .time ⟨0, .min⟩ .unset, true⟩ (by decide),
   (parseEffort_kind_agrees (str "45kg A") (.reps 8)).2 (by decide) (by decide)
      [⟨some ⟨45, .kg⟩, .reps 8 .A, false⟩] (by decide)
      ⟨some ⟨45, .kg⟩, .reps 8 .A, false⟩ (by decide)⟩

/-- Witness for `parseEffort_load_units`: in the drop set `"10/5 C7/5"`
(no `kg` suffix anywhere) the first effort still gets unit `kg`; in the
plain effort `"45 A"` (no `kg` suffix) the unit is empty. -/
theorem parseEffort_load_units_witness :
    (⟨10, LoadUnit.kg⟩ : LoadValue).unit = .kg ∧
    (⟨45, LoadUnit.unitless⟩ : LoadValue).unit =
      (if strHas (str "kg") (stateResidual (trim (str "45 A"))) then LoadUnit.kg
       else LoadUnit.unitless) :=
  ⟨(parseEffort_load_units (str "10/5 C7/5") (some (.reps 12))).1 (by decide) (by decide)
      [⟨some ⟨10, .kg⟩, .reps 7 .C, false⟩, ⟨some ⟨5, .kg⟩, .reps 5 .C, false⟩]
      (by decide) ⟨some ⟨10, .kg⟩, .reps 7 .C, false⟩ (by decide) ⟨10, .kg⟩ (by decide),
   (parseEffort_load_units (str "45 A") (some (.reps 8))).2.2.2 (by decide)
      [⟨some ⟨45, .unitless⟩, .reps 8 .A, false⟩] (by decide)
      ⟨some ⟨45, .unitless⟩, .reps 8 .A, false⟩ (by decide) ⟨45, .unitless⟩ (by decide)⟩

end TrainingTracker
